import Mathlib

/-!
Verification of the serial framing protocol of the claude-pad firmware
(`src/firmware/src/comms/serial_comms.{h,cpp}`, constants from
`src/firmware/src/config.h`).

The decoder is a byte-at-a-time state machine (`SerialComms::poll`); bytes
are modelled as `Nat` with the `uint8_t` cast made explicit as `% 256`, and
the `uint16_t` body length with `% 65536`.  The checksum function
(`protocol::checksum`, declared in the missing `protocol.h`) is an external
contract between the two endpoints, so every definition is parameterised
over an arbitrary `cs : List Nat → Nat`; its `uint8_t` return type is
modelled as `cs body % 256`.  Handler callbacks are modelled by registration
flags plus an explicit `Effect` value recording which handler is invoked
with which arguments; a `Dispatched` record is emitted exactly where the
code calls `processMessage`.
-/

namespace ClaudePad

/-- Constant `FRAME_START_BYTE` from `config.h`. -/
def FRAME_START_BYTE : Nat := 0xAA

/-- Constant `MAX_MSG_LEN` from `config.h`. -/
def MAX_MSG_LEN : Nat := 512

/-- Constant `SerialComms::FRAME_TIMEOUT_MS` from `serial_comms.h`. -/
def FRAME_TIMEOUT_MS : Nat := 500

/-- Constant `MSG_DISPLAY_TEXT` from `config.h`. -/
def MSG_DISPLAY_TEXT : Nat := 0x01

/-- Constant `MSG_BUTTON` from `config.h`. -/
def MSG_BUTTON : Nat := 0x02

/-- Constant `MSG_SET_LEDS` from `config.h`. -/
def MSG_SET_LEDS : Nat := 0x03

/-- Constant `MSG_STATUS` from `config.h`. -/
def MSG_STATUS : Nat := 0x04

/-- Constant `MSG_CLEAR` from `config.h`. -/
def MSG_CLEAR : Nat := 0x05

/-- Constant `MSG_SET_LABELS` from `config.h`. -/
def MSG_SET_LABELS : Nat := 0x06

/-- Constant `MSG_HEARTBEAT` from `config.h`. -/
def MSG_HEARTBEAT : Nat := 0x07

/-- Enum `SerialComms::ParseState` from `serial_comms.h`. -/
inductive ParseState
  | waitStart
  | readLenHi
  | readLenLo
  | readBody
  | readChecksum
  deriving DecidableEq

/-- A handler invocation performed by `SerialComms::processMessage`:
which registered callback is called, with which arguments. -/
inductive Effect
  | displayText (text : List Nat)
  | statusText (text : List Nat)
  | setLeds (data : List Nat)
  | clearDisplay
  | setLabels (labels : List (List Nat))
  deriving DecidableEq

/-- One call of `processMessage` (a checksum-verified body handed to the
dispatcher): the type byte, the payload bytes, and the handler invocation
it produced (`none` when no handler runs). -/
structure Dispatched where
  msgType : Nat
  payload : List Nat
  effect : Option Effect
  deriving DecidableEq

/-- The fields of class `SerialComms` that the decoder/dispatcher touch.
`buffer` models the fixed `uint8_t _buffer[MAX_MSG_LEN]` array (always of
length 512); the five Booleans model whether the corresponding callback
pointer is non-null. -/
structure Comms where
  state : ParseState
  buffer : List Nat
  bodyLen : Nat
  bodyIdx : Nat
  lastByteTime : Nat
  bridgeConnected : Bool
  onDisplayText : Bool
  onStatusText : Bool
  onSetLeds : Bool
  onClearDisplay : Bool
  onSetLabels : Bool
  deriving DecidableEq

/-- The member initialisers of `SerialComms` (all callbacks registered, as
`main.cpp` does in `setup`): state `WAIT_START`, zeroed buffer, and
`_bridgeConnected = false`. -/
def initComms : Comms where
  state := .waitStart
  buffer := List.replicate MAX_MSG_LEN 0
  bodyLen := 0
  bodyIdx := 0
  lastByteTime := 0
  bridgeConnected := false
  onDisplayText := true
  onStatusText := true
  onSetLeds := true
  onClearDisplay := true
  onSetLabels := true

/-- The label-record scan loop of the `MSG_SET_LABELS` case of
`processMessage`: reads records `LEN(1) | TEXT(LEN)` left to right,
truncating each text to 31 bytes (`copyLen = labelLen < 31 ? labelLen : 31`),
and stops when the payload is exhausted, a record length would read past the
payload end (`pos + labelLen > len`), or the record budget (4, passed as
fuel) is spent. -/
def decodeLabelsAux : Nat → List Nat → List (List Nat)
  | 0, _ => []
  | _ + 1, [] => []
  | n + 1, labelLen :: rest =>
    if rest.length < labelLen then []
    else rest.take (min labelLen 31) :: decodeLabelsAux n (rest.drop labelLen)

/-- The `labels[4]` array handed to `_onSetLabels`: the decoded records,
padded with empty strings (the `{"", "", "", ""}` initialiser) to 4 slots. -/
def labelsOf (payload : List Nat) : List (List Nat) :=
  let ds := decodeLabelsAux 4 payload
  ds ++ List.replicate (4 - ds.length) []

/-- The `switch (msgType)` of `SerialComms::processMessage`, factored out of
the state update: which handler is invoked for a given type byte and
payload, given the registration state of the five callbacks.  Types
`MSG_BUTTON` and `MSG_HEARTBEAT` are outbound-only and have no case;
unknown types fall through with no handler. -/
def dispatchEffect (onDisp onStat onLeds onClear onLabels : Bool)
    (msgType : Nat) (payload : List Nat) : Option Effect :=
  if msgType = MSG_DISPLAY_TEXT then
    if onDisp ∧ 0 < payload.length then some (.displayText payload) else none
  else if msgType = MSG_STATUS then
    if onStat ∧ 0 < payload.length then some (.statusText payload) else none
  else if msgType = MSG_SET_LEDS then
    if onLeds ∧ 0 < payload.length then some (.setLeds payload) else none
  else if msgType = MSG_CLEAR then
    if onClear then some .clearDisplay else none
  else if msgType = MSG_SET_LABELS then
    if onLabels ∧ 0 < payload.length then some (.setLabels (labelsOf payload)) else none
  else none

/-- Function `SerialComms::processMessage`: sets `_bridgeConnected = true`, then
dispatches on the type byte. -/
def processMessage (c : Comms) (msgType : Nat) (payload : List Nat) :
    Comms × Option Effect :=
  ({ c with bridgeConnected := true },
   dispatchEffect c.onDisplayText c.onStatusText c.onSetLeds c.onClearDisplay
     c.onSetLabels msgType payload)

/-- One iteration of the `while (Serial.available())` loop of
`SerialComms::poll`, minus the `_lastByteTime = millis()` update (performed
by `drain`): the `switch (_state)` on one received byte.  The incoming byte
is reduced `% 256` (the `uint8_t byte = Serial.read()` cast).  Returns the
new state and the `processMessage` call, if any. -/
def stepByte (cs : List Nat → Nat) (c : Comms) (b : Nat) :
    Comms × Option Dispatched :=
  let b := b % 256
  match c.state with
  | .waitStart =>
    (if b = FRAME_START_BYTE then { c with state := .readLenHi } else c, none)
  | .readLenHi =>
    ({ c with bodyLen := (b <<< 8) % 65536, state := .readLenLo }, none)
  | .readLenLo =>
    let len := c.bodyLen ||| b
    if len = 0 ∨ MAX_MSG_LEN < len then
      ({ c with bodyLen := len, state := .waitStart }, none)
    else
      ({ c with bodyLen := len, bodyIdx := 0, state := .readBody }, none)
  | .readBody =>
    let c1 := { c with buffer := c.buffer.set c.bodyIdx b, bodyIdx := c.bodyIdx + 1 }
    (if c1.bodyLen ≤ c1.bodyIdx then { c1 with state := .readChecksum } else c1, none)
  | .readChecksum =>
    let body := c.buffer.take c.bodyLen
    if b = cs body % 256 then
      let r := processMessage c (body.headD 0) body.tail
      ({ r.1 with state := .waitStart },
       some { msgType := body.headD 0, payload := body.tail, effect := r.2 })
    else
      ({ c with state := .waitStart }, none)

/-- The byte-draining loop of `SerialComms::poll`: each available byte sets
`_lastByteTime = millis()` (the poll-time `now`) and is fed to the state
machine.  Collects the `processMessage` calls in order. -/
def drain (cs : List Nat → Nat) (now : Nat) :
    Comms → List Nat → Comms × List Dispatched
  | c, [] => (c, [])
  | c, b :: rest =>
    let s := stepByte cs { c with lastByteTime := now } b
    let r := drain cs now s.1 rest
    (r.1, s.2.toList ++ r.2)

/-- Function `SerialComms::poll` called at time `now` with `input` as the available
bytes: first the inter-byte timeout check
(`_state != WAIT_START && (millis() - _lastByteTime) > FRAME_TIMEOUT_MS`
forces `_state = WAIT_START`), then the draining loop.  Time is a monotone
`Nat` clock, so the wrapping `unsigned long` subtraction is `Nat`
subtraction. -/
def poll (cs : List Nat → Nat) (now : Nat) (c : Comms) (input : List Nat) :
    Comms × List Dispatched :=
  let c0 := if c.state ≠ .waitStart ∧ FRAME_TIMEOUT_MS < now - c.lastByteTime
            then { c with state := .waitStart } else c
  drain cs now c0 input

/-- The wire frame for body `B` with checksum byte `csb`
(spec §3: `START(1) | BODY_LEN(2, big-endian) | BODY | CHECKSUM(1)`). -/
def frameBytes (B : List Nat) (csb : Nat) : List Nat :=
  FRAME_START_BYTE :: (B.length / 256) :: (B.length % 256) :: (B ++ [csb])

/-- Modelled from the spec: `protocol::buildFrame` (declared in
`protocol.h`, which is not part of the sources) per spec §4.2: start marker,
`BODY_LEN = L + 1` big-endian, body = type byte then payload, then the
checksum over the body. -/
def buildFrame (cs : List Nat → Nat) (msgType : Nat) (payload : List Nat) :
    List Nat :=
  frameBytes (msgType :: payload) (cs (msgType :: payload) % 256)

/-- A sample checksum function (the additive 8-bit sum the spec offers as an
example), used to instantiate the checksum parameter on concrete runs. -/
def sumChecksum (l : List Nat) : Nat :=
  l.foldl (fun a b => (a + b) % 256) 0

/-! Helper lemmas -/

/-- Recombining the big-endian length halves: `(hi << 8) | lo` is
`hi * 256 + lo` when `lo` is a byte. -/
theorem lor_mul_256 (a b : Nat) (hb : b < 256) : (a * 256) ||| b = a * 256 + b := by
  have hb' : b < 2 ^ 8 := by omega
  have ha : a * 256 = 2 ^ 8 * a := by ring
  apply Nat.eq_of_testBit_eq
  intro i
  rw [Nat.testBit_lor, ha, Nat.testBit_mul_pow_two_add a hb' i,
    Nat.testBit_mul_pow_two]
  by_cases hi : i < 8
  · simp [hi, Nat.not_le_of_lt hi]
  · have hbi : b < 2 ^ i :=
      lt_of_lt_of_le hb' (Nat.pow_le_pow_right (by omega) (Nat.le_of_not_lt hi))
    simp [hi, Nat.le_of_not_lt hi, Nat.testBit_eq_false_of_lt hbi]

theorem shiftLeft_8 (a : Nat) : a <<< 8 = a * 256 := by
  rw [Nat.shiftLeft_eq]

theorem set_take_succ (l : List Nat) (i a : Nat) (h : i < l.length) :
    (l.set i a).take (i + 1) = l.take i ++ [a] := by
  induction l generalizing i with
  | nil => simp at h
  | cons x xs ih =>
    cases i with
    | zero => simp
    | succ j =>
      simp only [List.set_cons_succ, List.take_succ_cons, List.cons_append]
      rw [ih j (by simpa using h)]

theorem set_drop (l : List Nat) (i n a : Nat) (h : i < n) :
    (l.set i a).drop n = l.drop n := by
  induction l generalizing i n with
  | nil => simp
  | cons x xs ih =>
    cases i with
    | zero =>
      cases n with
      | zero => omega
      | succ m => simp
    | succ j =>
      cases n with
      | zero => omega
      | succ m =>
        simp only [List.set_cons_succ, List.drop_succ_cons]
        exact ih j m (by omega)

theorem drain_nil (cs : List Nat → Nat) (now : Nat) (c : Comms) :
    drain cs now c [] = (c, []) := rfl

theorem drain_cons (cs : List Nat → Nat) (now : Nat) (c : Comms) (b : Nat)
    (rest : List Nat) :
    drain cs now c (b :: rest) =
      ((drain cs now (stepByte cs { c with lastByteTime := now } b).1 rest).1,
       (stepByte cs { c with lastByteTime := now } b).2.toList ++
         (drain cs now (stepByte cs { c with lastByteTime := now } b).1 rest).2) := rfl

/-- Draining a concatenation is draining the pieces in sequence. -/
theorem drain_append (cs : List Nat → Nat) (now : Nat) (c : Comms)
    (xs ys : List Nat) :
    drain cs now c (xs ++ ys) =
      ((drain cs now (drain cs now c xs).1 ys).1,
       (drain cs now c xs).2 ++ (drain cs now (drain cs now c xs).1 ys).2) := by
  induction xs generalizing c with
  | nil => simp [drain]
  | cons b rest ih =>
    simp only [List.cons_append, drain_cons, ih, List.append_assoc]

/-- The `READ_BODY` phase: from a `readBody` state, draining exactly the
remaining `B1` body bytes writes them into the buffer at indices
`bodyIdx ..< bodyLen` and ends in `readChecksum` with nothing dispatched. -/
theorem drain_body (cs : List Nat → Nat) (now : Nat) (B1 : List Nat) :
    ∀ c : Comms, c.state = .readBody → B1 ≠ [] →
      c.bodyIdx + B1.length = c.bodyLen → c.bodyLen ≤ c.buffer.length →
      (∀ x ∈ B1, x < 256) →
      drain cs now c B1 =
        ({ c with state := .readChecksum,
                  buffer := c.buffer.take c.bodyIdx ++ B1 ++ c.buffer.drop c.bodyLen,
                  bodyIdx := c.bodyLen, lastByteTime := now }, []) := by
  induction B1 with
  | nil => intro c _ hne; exact absurd rfl hne
  | cons b rest ih =>
    intro c hstate _ hidx hcap hbytes
    obtain ⟨st, buf, bl, bi, lt, bc, f1, f2, f3, f4, f5⟩ := c
    simp only at hstate hidx hcap ⊢
    subst hstate
    have hb : b % 256 = b := Nat.mod_eq_of_lt (hbytes b (by simp))
    cases rest with
    | nil =>
      have hbl : bi + 1 = bl := by simpa using hidx
      have hlt : bi < buf.length := by omega
      rw [drain_cons]
      simp only [stepByte, hb]
      rw [if_pos (by omega : bl ≤ bi + 1)]
      simp only [drain_nil, Option.toList_none, List.nil_append, Prod.mk.injEq,
        Comms.mk.injEq, and_true, true_and]
      refine ⟨?_, by omega⟩
      rw [List.set_eq_take_cons_drop b hlt]
      simp [← hbl]
    | cons b2 rest2 =>
      have hlt : bi + 1 < bl := by simp at hidx; omega
      have hblen : bi < buf.length := by omega
      rw [drain_cons]
      simp only [stepByte, hb]
      rw [if_neg (by omega : ¬ bl ≤ bi + 1)]
      rw [ih { state := .readBody, buffer := buf.set bi b, bodyLen := bl,
               bodyIdx := bi + 1, lastByteTime := now, bridgeConnected := bc,
               onDisplayText := f1, onStatusText := f2, onSetLeds := f3,
               onClearDisplay := f4, onSetLabels := f5 }
            rfl (by simp) (by simp at hidx ⊢; omega) (by simp; omega)
            (fun x hx => hbytes x (by simp [hx]))]
      simp only [Option.toList_none, List.nil_append, Prod.mk.injEq,
        Comms.mk.injEq, and_true, true_and]
      rw [set_take_succ buf bi b hblen, set_drop buf bi bl b (by omega)]
      simp

/-- Draining a well-formed frame (start byte, big-endian length of a body
`B` with `1 ≤ |B| ≤ 512`, the body, and a matching checksum byte) from any
`waitStart` state: the body is written to the buffer, exactly one message is
dispatched with type = first body byte and payload = remaining bytes, and
the machine is back in `waitStart`. -/
theorem drain_frame (cs : List Nat → Nat) (now : Nat) (c : Comms) (B : List Nat)
    (csb : Nat)
    (hstate : c.state = .waitStart) (hbuf : c.buffer.length = 512)
    (hne : B ≠ []) (hlen : B.length ≤ 512) (hbytes : ∀ x ∈ B, x < 256)
    (hcs : csb % 256 = cs B % 256) :
    drain cs now c (frameBytes B csb) =
      ({ c with state := .waitStart, buffer := B ++ c.buffer.drop B.length,
                bodyLen := B.length, bodyIdx := B.length, lastByteTime := now,
                bridgeConnected := true },
       [{ msgType := B.headD 0, payload := B.tail,
          effect := dispatchEffect c.onDisplayText c.onStatusText c.onSetLeds
            c.onClearDisplay c.onSetLabels (B.headD 0) B.tail }]) := by
  have hpos : 0 < B.length := List.length_pos.mpr hne
  obtain ⟨st, buf, bl, bi, lt, bc, f1, f2, f3, f4, f5⟩ := c
  simp only at hstate hbuf ⊢
  subst hstate
  rw [frameBytes, drain_cons]
  simp only [stepByte, FRAME_START_BYTE]
  norm_num
  -- length high byte
  rw [drain_cons]
  simp only [stepByte]
  have h1 : B.length / 256 % 256 = B.length / 256 := Nat.mod_eq_of_lt (by omega)
  have h2 : ((B.length / 256) <<< 8) % 65536 = B.length / 256 * 256 := by
    rw [shiftLeft_8]
    apply Nat.mod_eq_of_lt
    omega
  rw [h1, h2]
  -- length low byte
  rw [drain_cons]
  simp only [stepByte]
  have h3 : B.length % 256 % 256 = B.length % 256 :=
    Nat.mod_eq_of_lt (Nat.mod_lt _ (by decide))
  have h4 : B.length / 256 * 256 ||| B.length % 256 = B.length := by
    rw [lor_mul_256 _ _ (Nat.mod_lt _ (by decide))]
    omega
  rw [h3, h4]
  rw [if_neg (by simp only [MAX_MSG_LEN]; omega : ¬ (B.length = 0 ∨ MAX_MSG_LEN < B.length))]
  -- body bytes
  rw [drain_append]
  rw [drain_body cs now B _ rfl hne (by simp) (by simp; omega) hbytes]
  simp only [List.take_zero, List.nil_append]
  -- checksum byte
  rw [drain_cons]
  simp only [stepByte]
  have h5 : (B ++ List.drop B.length buf).take B.length = B := List.take_left' rfl
  simp only [h5]
  rw [if_pos hcs]
  simp [drain_nil, processMessage]

/-- One byte never changes the callback registrations, the buffer size, or
the timestamp, and never clears an established connection flag. -/
theorem stepByte_fields (cs : List Nat → Nat) (c : Comms) (b : Nat) :
    (stepByte cs c b).1.onDisplayText = c.onDisplayText ∧
    (stepByte cs c b).1.onStatusText = c.onStatusText ∧
    (stepByte cs c b).1.onSetLeds = c.onSetLeds ∧
    (stepByte cs c b).1.onClearDisplay = c.onClearDisplay ∧
    (stepByte cs c b).1.onSetLabels = c.onSetLabels ∧
    (stepByte cs c b).1.buffer.length = c.buffer.length ∧
    (stepByte cs c b).1.lastByteTime = c.lastByteTime ∧
    (c.bridgeConnected = true → (stepByte cs c b).1.bridgeConnected = true) := by
  obtain ⟨st, buf, bl, bi, lt, bc, f1, f2, f3, f4, f5⟩ := c
  cases st <;> simp only [stepByte, processMessage] <;>
    first
    | (split_ifs <;> simp)
    | simp

/-- Lemma: `drain` never changes the callback registrations or the buffer size and
never clears an established connection flag. -/
theorem drain_fields (cs : List Nat → Nat) (now : Nat) (input : List Nat) :
    ∀ c : Comms,
    (drain cs now c input).1.onDisplayText = c.onDisplayText ∧
    (drain cs now c input).1.onStatusText = c.onStatusText ∧
    (drain cs now c input).1.onSetLeds = c.onSetLeds ∧
    (drain cs now c input).1.onClearDisplay = c.onClearDisplay ∧
    (drain cs now c input).1.onSetLabels = c.onSetLabels ∧
    (drain cs now c input).1.buffer.length = c.buffer.length ∧
    (c.bridgeConnected = true → (drain cs now c input).1.bridgeConnected = true) := by
  induction input with
  | nil => intro c; simp [drain_nil]
  | cons b rest ih =>
    intro c
    rw [drain_cons]
    obtain ⟨g1, g2, g3, g4, g5, g6, g7, g8⟩ :=
      stepByte_fields cs { c with lastByteTime := now } b
    obtain ⟨k1, k2, k3, k4, k5, k6, k7⟩ :=
      ih (stepByte cs { c with lastByteTime := now } b).1
    simp only at g1 g2 g3 g4 g5 g6 g8
    exact ⟨by rw [k1, g1], by rw [k2, g2], by rw [k3, g3], by rw [k4, g4],
      by rw [k5, g5], by rw [k6, g6], fun h => k7 (g8 h)⟩

/-- A byte that dispatches nothing leaves an unset connection flag unset:
only `processMessage` (a dispatch) writes `_bridgeConnected = true`. -/
theorem stepByte_not_connected (cs : List Nat → Nat) (c : Comms) (b : Nat)
    (hbc : c.bridgeConnected = false)
    (hnone : (stepByte cs c b).2 = none) :
    (stepByte cs c b).1.bridgeConnected = false := by
  obtain ⟨st, buf, bl, bi, lt, bc, f1, f2, f3, f4, f5⟩ := c
  simp only at hbc
  subst hbc
  cases st with
  | waitStart =>
    simp only [stepByte]
    split_ifs <;> rfl
  | readLenHi => rfl
  | readLenLo =>
    simp only [stepByte]
    split_ifs <;> rfl
  | readBody =>
    simp only [stepByte]
    split_ifs <;> rfl
  | readChecksum =>
    simp only [stepByte] at hnone ⊢
    split_ifs at hnone ⊢ with h
    rfl

/-- A drained byte sequence that dispatches nothing leaves an unset
connection flag unset. -/
theorem drain_not_connected (cs : List Nat → Nat) (now : Nat)
    (input : List Nat) :
    ∀ c : Comms, c.bridgeConnected = false →
      (drain cs now c input).2 = [] →
      (drain cs now c input).1.bridgeConnected = false := by
  induction input with
  | nil =>
    intro c hbc _
    simpa [drain_nil] using hbc
  | cons b rest ih =>
    intro c hbc hnone
    rw [drain_cons] at hnone ⊢
    obtain ⟨hn1, hn2⟩ := List.append_eq_nil.mp hnone
    have h1 : (stepByte cs { c with lastByteTime := now } b).2 = none := by
      rcases h : (stepByte cs { c with lastByteTime := now } b).2 with _ | d
      · rfl
      · rw [h] at hn1; simp at hn1
    have h2 := stepByte_not_connected cs { c with lastByteTime := now } b
      (by simpa using hbc) h1
    exact ih _ h2 hn2

/-- Every received byte refreshes the last-activity timestamp: after a
nonempty drain it equals the poll time. -/
theorem drain_lastByteTime (cs : List Nat → Nat) (now : Nat) (input : List Nat) :
    ∀ c : Comms, input ≠ [] → (drain cs now c input).1.lastByteTime = now := by
  induction input with
  | nil => intro c h; exact absurd rfl h
  | cons b rest ih =>
    intro c _
    rw [drain_cons]
    cases rest with
    | nil =>
      simp only [drain_nil]
      have h := (stepByte_fields cs { c with lastByteTime := now } b).2.2.2.2.2.2.1
      simpa using h
    | cons b2 rest2 => exact ih _ (by simp)

/-- The body-write safety invariant: whenever the machine is in `READ_BODY`
the write index is strictly below the declared body length, which is within
the 512-byte buffer capacity. -/
def Inv (c : Comms) : Prop :=
  (c.state = .readBody → c.bodyIdx < c.bodyLen ∧ c.bodyLen ≤ MAX_MSG_LEN) ∧
  c.buffer.length = MAX_MSG_LEN

instance (c : Comms) : Decidable (Inv c) := by
  unfold Inv; infer_instance

theorem inv_initComms : Inv initComms :=
  ⟨nofun, by simp only [initComms, List.length_replicate]⟩

theorem stepByte_inv (cs : List Nat → Nat) (c : Comms) (b : Nat) (h : Inv c) :
    Inv (stepByte cs c b).1 := by
  obtain ⟨hbody, hlen⟩ := h
  obtain ⟨st, buf, bl, bi, lt, bc, f1, f2, f3, f4, f5⟩ := c
  simp only at hbody hlen
  cases st with
  | waitStart =>
    simp only [stepByte]
    split_ifs <;> exact ⟨nofun, hlen⟩
  | readLenHi =>
    exact ⟨nofun, hlen⟩
  | readLenLo =>
    simp only [stepByte]
    split_ifs with hc
    · exact ⟨nofun, hlen⟩
    · refine ⟨fun _ => ?_, hlen⟩
      push_neg at hc
      simp only [MAX_MSG_LEN] at hc ⊢
      omega
  | readBody =>
    have hb := hbody rfl
    simp only [stepByte]
    split_ifs with hc
    · exact ⟨nofun, by simpa using hlen⟩
    · refine ⟨fun _ => ?_, by simpa using hlen⟩
      simp only [not_le] at hc
      simp only at hb ⊢
      omega
  | readChecksum =>
    simp only [stepByte, processMessage]
    split_ifs <;> exact ⟨nofun, hlen⟩

theorem drain_inv (cs : List Nat → Nat) (now : Nat) (input : List Nat) :
    ∀ c : Comms, Inv c → Inv (drain cs now c input).1 := by
  induction input with
  | nil => intro c h; simpa [drain_nil] using h
  | cons b rest ih =>
    intro c h
    rw [drain_cons]
    refine ih _ (stepByte_inv cs { c with lastByteTime := now } b ?_)
    exact ⟨h.1, h.2⟩

theorem poll_inv (cs : List Nat → Nat) (now : Nat) (c : Comms)
    (input : List Nat) (h : Inv c) : Inv (poll cs now c input).1 := by
  unfold poll
  split_ifs with hc
  · exact drain_inv cs now input _ ⟨by simp, h.2⟩
  · exact drain_inv cs now input c h

theorem take_min_31 (t z : List Nat) :
    (t ++ z).take (min t.length 31) = t.take 31 := by
  rcases le_or_lt t.length 31 with h | h
  · rw [Nat.min_eq_left h, List.take_left, List.take_of_length_le h]
  · rw [Nat.min_eq_right (Nat.le_of_lt h),
      List.take_append_of_le_length (Nat.le_of_lt h)]

/-- A record whose declared length matches its text is consumed whole,
truncated to 31 bytes, and the scan continues after it. -/
theorem decodeLabelsAux_cons (n : Nat) (t z : List Nat) :
    decodeLabelsAux (n + 1) ((t.length :: t) ++ z) =
      t.take 31 :: decodeLabelsAux n z := by
  simp only [List.cons_append, decodeLabelsAux, List.append_eq]
  rw [if_neg (by simp), take_min_31, List.drop_left]

theorem decodeLabelsAux_over (n l3 : Nat) (rest : List Nat)
    (h : rest.length < l3) : decodeLabelsAux (n + 1) (l3 :: rest) = [] := by
  simp only [decodeLabelsAux]
  rw [if_pos h]

theorem decodeLabelsAux_length (n : Nat) :
    ∀ p : List Nat, (decodeLabelsAux n p).length ≤ n := by
  induction n with
  | zero => intro p; simp [decodeLabelsAux]
  | succ m ih =>
    intro p
    cases p with
    | nil => simp [decodeLabelsAux]
    | cons labelLen rest =>
      simp only [decodeLabelsAux]
      split_ifs
      · simp
      · simpa using ih (rest.drop labelLen)

theorem decodeLabelsAux_mem_length (n : Nat) :
    ∀ p s, s ∈ decodeLabelsAux n p → s.length ≤ 31 := by
  induction n with
  | zero => intro p s hs; simp [decodeLabelsAux] at hs
  | succ m ih =>
    intro p s hs
    cases p with
    | nil => simp [decodeLabelsAux] at hs
    | cons labelLen rest =>
      simp only [decodeLabelsAux] at hs
      split_ifs at hs
      · simp at hs
      · rcases List.mem_cons.mp hs with h | h
        · subst h
          calc (rest.take (min labelLen 31)).length
              ≤ min labelLen 31 := List.length_take_le _ _
            _ ≤ 31 := Nat.min_le_right _ _
        · exact ih _ s h

theorem labelsOf_length (p : List Nat) : (labelsOf p).length = 4 := by
  have h := decodeLabelsAux_length 4 p
  simp only [labelsOf, List.length_append, List.length_replicate]
  omega

theorem labelsOf_mem_length (p s : List Nat) (hs : s ∈ labelsOf p) :
    s.length ≤ 31 := by
  simp only [labelsOf, List.mem_append] at hs
  rcases hs with h | h
  · exact decodeLabelsAux_mem_length 4 p s h
  · rw [List.eq_of_mem_replicate h]; simp

/-- From any `waitStart` state, `poll` is just the draining loop: the
timeout branch cannot fire. -/
theorem poll_eq_drain (cs : List Nat → Nat) (now : Nat) (c : Comms)
    (input : List Nat) (hstate : c.state = .waitStart) :
    poll cs now c input = drain cs now c input := by
  unfold poll
  rw [if_neg (by simp [hstate])]

theorem initComms_buffer_length : initComms.buffer.length = 512 := by
  simp only [initComms, List.length_replicate, MAX_MSG_LEN]

/-! Claim theorems -/

/-- Claim C1: for every body `B` with `1 ≤ |B| ≤ 512` and a checksum byte
equal to `checksum(B)`, feeding the decoder (in `WaitStart`) the frame
`0xAA, |B|` (big-endian, two bytes), the body, then the checksum byte causes
exactly one dispatch of the message (type = first body byte, payload =
remaining bytes) and leaves the decoder in `WaitStart`. -/
theorem decode_valid_frame (cs : List Nat → Nat) (now : Nat) (c : Comms)
    (B : List Nat) (csb : Nat)
    (hstate : c.state = .waitStart) (hbuf : c.buffer.length = 512)
    (hne : B ≠ []) (hlen : B.length ≤ 512) (hbytes : ∀ x ∈ B, x < 256)
    (hcs : csb = cs B % 256) :
    ((poll cs now c (frameBytes B csb)).2.map fun d => (d.msgType, d.payload))
        = [(B.headD 0, B.tail)] ∧
    (poll cs now c (frameBytes B csb)).1.state = .waitStart := by
  rw [poll_eq_drain cs now c _ hstate,
    drain_frame cs now c B csb hstate hbuf hne hlen hbytes
      (by rw [hcs]; exact Nat.mod_eq_of_lt (Nat.mod_lt _ (by decide)))]
  exact ⟨rfl, rfl⟩

theorem decode_valid_frame_witness :
    initComms.state = ParseState.waitStart ∧
    initComms.buffer.length = 512 ∧
    ([2, 2, 1] : List Nat) ≠ [] ∧
    ([2, 2, 1] : List Nat).length ≤ 512 ∧
    (∀ x ∈ ([2, 2, 1] : List Nat), x < 256) ∧
    ((poll sumChecksum 1 initComms
        (frameBytes [2, 2, 1] (sumChecksum [2, 2, 1] % 256))).2.map
        fun d => (d.msgType, d.payload)) = [(2, [2, 1])] ∧
    (poll sumChecksum 1 initComms
        (frameBytes [2, 2, 1] (sumChecksum [2, 2, 1] % 256))).1.state =
      ParseState.waitStart :=
  ⟨rfl, initComms_buffer_length, by decide, by decide, by decide,
   (decode_valid_frame sumChecksum 1 initComms [2, 2, 1] _ rfl
      initComms_buffer_length (by decide) (by decide) (by decide) rfl).1,
   (decode_valid_frame sumChecksum 1 initComms [2, 2, 1] _ rfl
      initComms_buffer_length (by decide) (by decide) (by decide) rfl).2⟩

/-- Claim C2: a message is dispatched only when the received byte equals the
checksum computed over the stored body, and on a mismatch no handler is
invoked and the machine returns to `WaitStart` with nothing else changed. -/
theorem checksum_gate (cs : List Nat → Nat) (c : Comms) (b : Nat) :
    (∀ d, (stepByte cs c b).2 = some d →
        c.state = .readChecksum ∧
        b % 256 = cs (c.buffer.take c.bodyLen) % 256 ∧
        d.msgType = (c.buffer.take c.bodyLen).headD 0 ∧
        d.payload = (c.buffer.take c.bodyLen).tail) ∧
    (c.state = .readChecksum → b % 256 ≠ cs (c.buffer.take c.bodyLen) % 256 →
        stepByte cs c b = ({ c with state := .waitStart }, none)) := by
  obtain ⟨st, buf, bl, bi, lt, bc, f1, f2, f3, f4, f5⟩ := c
  constructor
  · intro d hd
    cases st with
    | waitStart => simp [stepByte] at hd
    | readLenHi => simp [stepByte] at hd
    | readLenLo =>
      simp only [stepByte] at hd
      split_ifs at hd
    | readBody => simp [stepByte] at hd
    | readChecksum =>
      simp only [stepByte] at hd
      split_ifs at hd with hmatch
      simp only [Option.some.injEq] at hd
      subst hd
      exact ⟨rfl, hmatch, rfl, rfl⟩
  · intro hstate hmm
    simp only at hstate
    subst hstate
    simp only [stepByte]
    rw [if_neg hmm]

theorem checksum_gate_witness :
    (⟨ParseState.readChecksum, List.replicate 512 0, 3, 3, 0, false,
        true, true, true, true, true⟩ : Comms).state = ParseState.readChecksum ∧
    (7 : Nat) % 256 ≠
      sumChecksum ((List.replicate 512 0).take 3) % 256 ∧
    stepByte sumChecksum
      ⟨ParseState.readChecksum, List.replicate 512 0, 3, 3, 0, false,
        true, true, true, true, true⟩ 7 =
      (⟨ParseState.waitStart, List.replicate 512 0, 3, 3, 0, false,
        true, true, true, true, true⟩, none) :=
  ⟨rfl, by decide,
   (checksum_gate sumChecksum
      ⟨ParseState.readChecksum, List.replicate 512 0, 3, 3, 0, false,
        true, true, true, true, true⟩ 7).2 rfl (by decide)⟩

/-- Claim C3: decoding the byte sequence produced by the encoder
(`sendFrame` / `buildFrame`, modelled from the spec) for any type byte and
any payload with `|payload| ≤ 511` dispatches exactly the one message
`(type, payload)`. -/
theorem encode_decode_roundTrip (cs : List Nat → Nat) (now : Nat) (c : Comms)
    (msgType : Nat) (payload : List Nat)
    (hstate : c.state = .waitStart) (hbuf : c.buffer.length = 512)
    (ht : msgType < 256) (hp : ∀ x ∈ payload, x < 256)
    (hlen : payload.length ≤ 511) :
    ((poll cs now c (buildFrame cs msgType payload)).2.map
        fun d => (d.msgType, d.payload)) = [(msgType, payload)] ∧
    (poll cs now c (buildFrame cs msgType payload)).1.state = .waitStart := by
  rw [poll_eq_drain cs now c _ hstate]
  unfold buildFrame
  rw [drain_frame cs now c (msgType :: payload) _ hstate hbuf (by simp)
    (by simp; omega)
    (by
      intro x hx
      rcases List.mem_cons.mp hx with h | h
      · omega
      · exact hp x h)
    (Nat.mod_eq_of_lt (Nat.mod_lt _ (by decide)))]
  exact ⟨rfl, rfl⟩

theorem encode_decode_roundTrip_witness :
    initComms.state = ParseState.waitStart ∧
    initComms.buffer.length = 512 ∧
    (2 : Nat) < 256 ∧
    (∀ x ∈ ([2, 1] : List Nat), x < 256) ∧
    ([2, 1] : List Nat).length ≤ 511 ∧
    ((poll sumChecksum 1 initComms (buildFrame sumChecksum 2 [2, 1])).2.map
        fun d => (d.msgType, d.payload)) = [(2, [2, 1])] ∧
    (poll sumChecksum 1 initComms (buildFrame sumChecksum 2 [2, 1])).1.state =
      ParseState.waitStart :=
  ⟨rfl, initComms_buffer_length, by decide, by decide, by decide,
   (encode_decode_roundTrip sumChecksum 1 initComms 2 [2, 1] rfl
      initComms_buffer_length (by decide) (by decide) (by decide)).1,
   (encode_decode_roundTrip sumChecksum 1 initComms 2 [2, 1] rfl
      initComms_buffer_length (by decide) (by decide) (by decide)).2⟩

/-- After a start marker, a declared length that combines to `0` or to more
than `MAX_MSG_LEN` sends the machine straight back to `waitStart` when the
low byte is consumed, with the buffer and body index untouched. -/
theorem drain_reject_len (cs : List Nat → Nat) (now : Nat) (c : Comms)
    (hi lo : Nat) (hstate : c.state = .waitStart) (hhi : hi < 256)
    (hlo : lo < 256) (hbad : hi * 256 + lo = 0 ∨ 512 < hi * 256 + lo) :
    drain cs now c [FRAME_START_BYTE, hi, lo] =
      ({ c with state := .waitStart, bodyLen := hi * 256 + lo,
                lastByteTime := now }, []) := by
  obtain ⟨st, buf, bl, bi, lt, bc, f1, f2, f3, f4, f5⟩ := c
  simp only at hstate ⊢
  subst hstate
  rw [drain_cons]
  simp only [stepByte, FRAME_START_BYTE]
  norm_num
  rw [drain_cons]
  simp only [stepByte]
  have h1 : hi % 256 = hi := Nat.mod_eq_of_lt hhi
  have h2 : (hi <<< 8) % 65536 = hi * 256 := by
    rw [shiftLeft_8]
    apply Nat.mod_eq_of_lt
    omega
  rw [h1, h2]
  rw [drain_cons]
  simp only [stepByte]
  have h3 : lo % 256 = lo := Nat.mod_eq_of_lt hlo
  have h4 : hi * 256 ||| lo = hi * 256 + lo := lor_mul_256 hi lo hlo
  rw [h3, h4]
  rw [if_pos (by simp only [MAX_MSG_LEN]; omega)]
  simp [drain_nil]

/-- Claim C4: after a start marker, a declared `BODY_LEN` of 0 or above 512
is rejected the moment the low length byte arrives — no body byte is stored,
the machine is back in `waitStart` — and a valid frame sent immediately
afterwards is decoded normally. -/
theorem length_bounds_reject (cs : List Nat → Nat) (now : Nat) (c : Comms)
    (hi lo : Nat) (B : List Nat)
    (hstate : c.state = .waitStart) (hbuf : c.buffer.length = 512)
    (hhi : hi < 256) (hlo : lo < 256)
    (hbad : hi * 256 + lo = 0 ∨ 512 < hi * 256 + lo)
    (hne : B ≠ []) (hlenB : B.length ≤ 512) (hbytes : ∀ x ∈ B, x < 256) :
    drain cs now c [FRAME_START_BYTE, hi, lo] =
      ({ c with state := .waitStart, bodyLen := hi * 256 + lo,
                lastByteTime := now }, []) ∧
    ((drain cs now c
        ([FRAME_START_BYTE, hi, lo] ++ frameBytes B (cs B % 256))).2.map
        fun d => (d.msgType, d.payload)) = [(B.headD 0, B.tail)] ∧
    (drain cs now c
        ([FRAME_START_BYTE, hi, lo] ++ frameBytes B (cs B % 256))).1.state =
      .waitStart := by
  have h1 := drain_reject_len cs now c hi lo hstate hhi hlo hbad
  have h2 := drain_append cs now c [FRAME_START_BYTE, hi, lo]
    (frameBytes B (cs B % 256))
  rw [h1] at h2
  dsimp only at h2
  have h3 := drain_frame cs now
    { c with state := ParseState.waitStart, bodyLen := hi * 256 + lo, lastByteTime := now }
    B (cs B % 256) rfl hbuf hne hlenB hbytes
    (Nat.mod_eq_of_lt (Nat.mod_lt _ (by decide)))
  rw [h3] at h2
  refine ⟨h1, ?_, ?_⟩ <;> (rw [h2]; try rfl)

theorem length_bounds_reject_witness :
    initComms.state = ParseState.waitStart ∧
    initComms.buffer.length = 512 ∧
    (0 : Nat) < 256 ∧ (0 : Nat) < 256 ∧
    ((0 : Nat) * 256 + 0 = 0 ∨ 512 < (0 : Nat) * 256 + 0) ∧
    ([7, 9] : List Nat) ≠ [] ∧ ([7, 9] : List Nat).length ≤ 512 ∧
    (∀ x ∈ ([7, 9] : List Nat), x < 256) ∧
    ((drain sumChecksum 1 initComms
        ([FRAME_START_BYTE, 0, 0] ++ frameBytes [7, 9] (sumChecksum [7, 9] % 256))).2.map
        fun d => (d.msgType, d.payload)) = [(7, [9])] :=
  ⟨rfl, initComms_buffer_length, by decide, by decide, by decide, by decide,
   by decide, by decide,
   (length_bounds_reject sumChecksum 1 initComms 0 0 [7, 9] rfl
      initComms_buffer_length (by decide) (by decide) (by decide) (by decide)
      (by decide) (by decide)).2.1⟩

/-- Claim C5: the SET_LABELS payload is decoded as up to 4 records
`LEN(1) | TEXT(LEN)` left to right, each string truncated to at most 31
bytes; the scan stops silently when a record over-declares its length or
4 records exist, and an over-declaring 3rd record leaves records 3–4 empty
while records 1–2 are populated. -/
theorem set_labels_decode (c : Comms) (payload t1 t2 rest : List Nat)
    (l3 : Nat) (hover : rest.length < l3) (hreg : c.onSetLabels = true)
    (hne : payload ≠ []) :
    (∀ q : List Nat, (labelsOf q).length = 4) ∧
    (∀ q s : List Nat, s ∈ labelsOf q → s.length ≤ 31) ∧
    labelsOf ((t1.length :: t1) ++ ((t2.length :: t2) ++ (l3 :: rest))) =
      [t1.take 31, t2.take 31, [], []] ∧
    dispatchEffect c.onDisplayText c.onStatusText c.onSetLeds
        c.onClearDisplay c.onSetLabels MSG_SET_LABELS payload =
      some (.setLabels (labelsOf payload)) := by
  refine ⟨labelsOf_length, fun q s => labelsOf_mem_length q s, ?_, ?_⟩
  · have e1 := decodeLabelsAux_cons 3 t1 ((t2.length :: t2) ++ (l3 :: rest))
    have e2 := decodeLabelsAux_cons 2 t2 (l3 :: rest)
    have e3 := decodeLabelsAux_over 1 l3 rest hover
    norm_num at e1 e2 e3
    simp only [labelsOf, List.cons_append]
    rw [e1, e2, e3]
    simp
  · simp only [dispatchEffect]
    rw [if_neg (by decide : ¬ (MSG_SET_LABELS = MSG_DISPLAY_TEXT)),
      if_neg (by decide : ¬ (MSG_SET_LABELS = MSG_STATUS)),
      if_neg (by decide : ¬ (MSG_SET_LABELS = MSG_SET_LEDS)),
      if_neg (by decide : ¬ (MSG_SET_LABELS = MSG_CLEAR))]
    exact if_pos (And.intro hreg (List.length_pos.mpr hne))

theorem set_labels_decode_witness :
    ([1, 2] : List Nat).length < 99 ∧
    initComms.onSetLabels = true ∧
    ([1, 65] : List Nat) ≠ [] ∧
    labelsOf ((([65, 66] : List Nat).length :: [65, 66]) ++
        ((([67] : List Nat).length :: [67]) ++ (99 :: [1, 2]))) =
      [([65, 66] : List Nat).take 31, ([67] : List Nat).take 31, [], []] ∧
    dispatchEffect initComms.onDisplayText initComms.onStatusText
        initComms.onSetLeds initComms.onClearDisplay initComms.onSetLabels
        MSG_SET_LABELS [1, 65] =
      some (.setLabels (labelsOf [1, 65])) :=
  ⟨by decide, rfl, by decide,
   (set_labels_decode initComms [1, 65] [65, 66] [67] [1, 2] 99 (by decide)
      rfl (by decide)).2.2.1,
   (set_labels_decode initComms [1, 65] [65, 66] [67] [1, 2] 99 (by decide)
      rfl (by decide)).2.2.2⟩

/-- Claim C6: the connectivity flag is false initially and stays false as
long as nothing is dispatched (raw byte receipt alone never sets it), is set
by every dispatched (checksum-verified) frame regardless of message type,
and is never cleared by the decoder/dispatcher layer. -/
theorem liveness_flag (cs : List Nat → Nat) (c : Comms) (b : Nat) :
    initComms.bridgeConnected = false ∧
    (∀ d, (stepByte cs c b).2 = some d →
        (stepByte cs c b).1.bridgeConnected = true) ∧
    (c.state = .readChecksum → b % 256 = cs (c.buffer.take c.bodyLen) % 256 →
        (stepByte cs c b).1.bridgeConnected = true) ∧
    (c.bridgeConnected = true → (stepByte cs c b).1.bridgeConnected = true) ∧
    (c.bridgeConnected = false → (stepByte cs c b).2 = none →
        (stepByte cs c b).1.bridgeConnected = false) ∧
    (∀ now input, c.bridgeConnected = true →
        (poll cs now c input).1.bridgeConnected = true) ∧
    (∀ now input, c.bridgeConnected = false →
        (poll cs now c input).2 = [] →
        (poll cs now c input).1.bridgeConnected = false) := by
  refine ⟨rfl, ?_, ?_, ?_, fun hbc hnone => stepByte_not_connected cs c b hbc hnone, ?_, ?_⟩
  · intro d hd
    obtain ⟨st, buf, bl, bi, lt, bc, f1, f2, f3, f4, f5⟩ := c
    cases st with
    | waitStart => simp [stepByte] at hd
    | readLenHi => simp [stepByte] at hd
    | readLenLo =>
      simp only [stepByte] at hd
      split_ifs at hd
    | readBody => simp [stepByte] at hd
    | readChecksum =>
      simp only [stepByte] at hd ⊢
      split_ifs at hd ⊢ with hmatch
      rfl
  · intro hstate hmatch
    obtain ⟨st, buf, bl, bi, lt, bc, f1, f2, f3, f4, f5⟩ := c
    simp only at hstate hmatch
    subst hstate
    simp only [stepByte]
    rw [if_pos hmatch]
    rfl
  · exact (stepByte_fields cs c b).2.2.2.2.2.2.2
  · intro now input hbc
    unfold poll
    split_ifs
    · exact (drain_fields cs now input _).2.2.2.2.2.2 hbc
    · exact (drain_fields cs now input c).2.2.2.2.2.2 hbc
  · intro now input hbc hnone
    unfold poll at hnone ⊢
    split_ifs at hnone ⊢
    · exact drain_not_connected cs now input _ (by simpa using hbc) hnone
    · exact drain_not_connected cs now input c hbc hnone

theorem liveness_flag_witness :
    (⟨ParseState.readChecksum, List.replicate 512 0, 1, 1, 0, false,
        true, true, true, true, true⟩ : Comms).state = ParseState.readChecksum ∧
    (0 : Nat) % 256 =
      sumChecksum ((List.replicate 512 0).take 1) % 256 ∧
    (stepByte sumChecksum
      ⟨ParseState.readChecksum, List.replicate 512 0, 1, 1, 0, false,
        true, true, true, true, true⟩ 0).1.bridgeConnected = true ∧
    initComms.bridgeConnected = false ∧
    (poll sumChecksum 0 initComms [85, 170, 0, 2]).2 = [] ∧
    (poll sumChecksum 0 initComms [85, 170, 0, 2]).1.bridgeConnected = false :=
  ⟨rfl, by decide,
   (liveness_flag sumChecksum
      ⟨ParseState.readChecksum, List.replicate 512 0, 1, 1, 0, false,
        true, true, true, true, true⟩ 0).2.2.1 rfl (by decide),
   rfl, by decide,
   (liveness_flag sumChecksum initComms 0).2.2.2.2.2.2 0 [85, 170, 0, 2] rfl
     (by decide)⟩

/-- Claim C7: if the decoder is mid-frame and more than 500 ms have passed
since the last byte, the next `poll` resets to `WaitStart`, discards the
partial frame, and a complete valid frame supplied to that `poll` is parsed
correctly; every received byte refreshes the last-activity timestamp. -/
theorem timeout_resync (cs : List Nat → Nat) (now : Nat) (c : Comms)
    (B : List Nat)
    (hstate : c.state ≠ .waitStart) (htime : 500 < now - c.lastByteTime)
    (hbuf : c.buffer.length = 512) (hne : B ≠ []) (hlen : B.length ≤ 512)
    (hbytes : ∀ x ∈ B, x < 256) :
    ((poll cs now c (frameBytes B (cs B % 256))).2.map
        fun d => (d.msgType, d.payload)) = [(B.headD 0, B.tail)] ∧
    (poll cs now c (frameBytes B (cs B % 256))).1.state = .waitStart ∧
    (∀ input, input ≠ [] → (poll cs now c input).1.lastByteTime = now) := by
  have hpoll : ∀ input, poll cs now c input =
      drain cs now { c with state := .waitStart } input := by
    intro input
    unfold poll
    rw [if_pos ⟨hstate, htime⟩]
  have hframe := drain_frame cs now { c with state := .waitStart } B
    (cs B % 256) rfl hbuf hne hlen hbytes
    (Nat.mod_eq_of_lt (Nat.mod_lt _ (by decide)))
  refine ⟨?_, ?_, ?_⟩
  · rw [hpoll, hframe]
    rfl
  · rw [hpoll, hframe]
  · intro input hne2
    rw [hpoll]
    exact drain_lastByteTime cs now input _ hne2

theorem timeout_resync_witness :
    (⟨ParseState.readLenLo, List.replicate 512 0, 0, 0, 0, false,
        true, true, true, true, true⟩ : Comms).state ≠ ParseState.waitStart ∧
    (500 : Nat) < 1000 - 0 ∧
    ((poll sumChecksum 1000
        ⟨ParseState.readLenLo, List.replicate 512 0, 0, 0, 0, false,
          true, true, true, true, true⟩
        (frameBytes [5] (sumChecksum [5] % 256))).2.map
        fun d => (d.msgType, d.payload)) = [(5, [])] :=
  ⟨by decide, by decide,
   (timeout_resync sumChecksum 1000
      ⟨ParseState.readLenLo, List.replicate 512 0, 0, 0, 0, false,
        true, true, true, true, true⟩ [5] (by decide) (by decide)
      (by simp only [Comms.buffer]; simp only [List.length_replicate])
      (by decide) (by decide) (by decide)).1⟩

/-- Claim C8: a checksum-verified frame whose type byte is none of the seven
defined message codes is accepted by the framing layer (it is dispatched,
and sets the connectivity flag) but invokes no handler and raises no
error. -/
theorem unknown_type_dropped (cs : List Nat → Nat) (now : Nat) (c : Comms)
    (t : Nat) (payload : List Nat)
    (hstate : c.state = .waitStart) (hbuf : c.buffer.length = 512)
    (ht : t < 256) (hunk : t ∉ ([1, 2, 3, 4, 5, 6, 7] : List Nat))
    (hp : ∀ x ∈ payload, x < 256) (hlen : payload.length ≤ 511) :
    (poll cs now c (frameBytes (t :: payload) (cs (t :: payload) % 256))).2 =
      [{ msgType := t, payload := payload, effect := none }] ∧
    (poll cs now c
        (frameBytes (t :: payload) (cs (t :: payload) % 256))).1.state =
      .waitStart ∧
    (poll cs now c
        (frameBytes (t :: payload) (cs (t :: payload) % 256))).1.bridgeConnected =
      true := by
  have heff : dispatchEffect c.onDisplayText c.onStatusText c.onSetLeds
      c.onClearDisplay c.onSetLabels t payload = none := by
    simp only [List.mem_cons, List.not_mem_nil, or_false] at hunk
    push_neg at hunk
    obtain ⟨n1, n2, n3, n4, n5, n6, n7⟩ := hunk
    simp only [dispatchEffect, MSG_DISPLAY_TEXT, MSG_STATUS, MSG_SET_LEDS,
      MSG_CLEAR, MSG_SET_LABELS]
    rw [if_neg n1, if_neg n4, if_neg n3, if_neg n5, if_neg n6]
  rw [poll_eq_drain cs now c _ hstate,
    drain_frame cs now c (t :: payload) _ hstate hbuf (by simp)
      (by simp; omega)
      (by
        intro x hx
        rcases List.mem_cons.mp hx with h | h
        · omega
        · exact hp x h)
      (Nat.mod_eq_of_lt (Nat.mod_lt _ (by decide)))]
  refine ⟨?_, rfl, rfl⟩
  simp only [List.headD_cons, List.tail_cons]
  rw [heff]

theorem unknown_type_dropped_witness :
    initComms.state = ParseState.waitStart ∧
    initComms.buffer.length = 512 ∧
    (9 : Nat) < 256 ∧
    (9 : Nat) ∉ ([1, 2, 3, 4, 5, 6, 7] : List Nat) ∧
    (∀ x ∈ ([1] : List Nat), x < 256) ∧
    ([1] : List Nat).length ≤ 511 ∧
    (poll sumChecksum 1 initComms
        (frameBytes (9 :: [1]) (sumChecksum (9 :: [1]) % 256))).2 =
      [{ msgType := 9, payload := [1], effect := none }] ∧
    (poll sumChecksum 1 initComms
        (frameBytes (9 :: [1]) (sumChecksum (9 :: [1]) % 256))).1.bridgeConnected =
      true :=
  ⟨rfl, initComms_buffer_length, by decide, by decide, by decide, by decide,
   (unknown_type_dropped sumChecksum 1 initComms 9 [1] rfl
      initComms_buffer_length (by decide) (by decide) (by decide) (by decide)).1,
   (unknown_type_dropped sumChecksum 1 initComms 9 [1] rfl
      initComms_buffer_length (by decide) (by decide) (by decide) (by decide)).2.2⟩

/-- Claim C9: the decoder only ever enters `READ_BODY` with
`1 ≤ bodyLen ≤ 512` and `bodyIdx = 0`, and each body-byte write happens at
index `bodyIdx < bodyLen ≤ 512`, strictly inside the buffer: the invariant
holds initially and is preserved by every byte and every `poll`. -/
theorem body_write_safety (cs : List Nat → Nat) (now : Nat) :
    Inv initComms ∧
    (∀ c b, Inv c → Inv (stepByte cs c b).1) ∧
    (∀ c b, c.state = .readLenLo → (stepByte cs c b).1.state = .readBody →
        (stepByte cs c b).1.bodyIdx = 0 ∧ 1 ≤ (stepByte cs c b).1.bodyLen ∧
        (stepByte cs c b).1.bodyLen ≤ 512) ∧
    (∀ c, Inv c → c.state = .readBody →
        c.bodyIdx < c.bodyLen ∧ c.bodyLen ≤ 512 ∧
        c.bodyIdx < c.buffer.length) ∧
    (∀ c input, Inv c → Inv (poll cs now c input).1) := by
  refine ⟨inv_initComms, fun c b => stepByte_inv cs c b, ?_, ?_,
    fun c input h => poll_inv cs now c input h⟩
  · intro c b hst hres
    obtain ⟨st, buf, bl, bi, lt, bc, f1, f2, f3, f4, f5⟩ := c
    simp only at hst
    subst hst
    simp only [stepByte] at hres ⊢
    split_ifs at hres ⊢ with hc
    push_neg at hc
    simp only [MAX_MSG_LEN] at hc
    refine ⟨rfl, ?_, ?_⟩
    · show 1 ≤ bl ||| b % 256
      omega
    · show bl ||| b % 256 ≤ 512
      omega
  · intro c hInv hst
    obtain ⟨hb, hlen2⟩ := hInv
    obtain ⟨hlt, hle⟩ := hb hst
    exact ⟨hlt, hle, by omega⟩

theorem body_write_safety_witness :
    Inv initComms ∧
    Inv (poll sumChecksum 0 initComms [0xAA, 0, 3, 1, 2]).1 :=
  ⟨(body_write_safety sumChecksum 0).1,
   (body_write_safety sumChecksum 0).2.2.2.2 initComms [0xAA, 0, 3, 1, 2]
     (body_write_safety sumChecksum 0).1⟩

/-- Claim C10: a verified frame with `BODY_LEN = 1` (empty payload) of type
DISPLAY_TEXT, STATUS, SET_LEDS or SET_LABELS invokes no handler (the
length-positive guard fails), a CLEAR frame invokes its handler regardless
of payload length, and the connectivity flag is set in every case. -/
theorem empty_payload_suppression (cs : List Nat → Nat) (now : Nat)
    (c : Comms) (t : Nat)
    (hstate : c.state = .waitStart) (hbuf : c.buffer.length = 512)
    (ht : t < 256) :
    (t = MSG_DISPLAY_TEXT ∨ t = MSG_SET_LEDS ∨ t = MSG_STATUS ∨
        t = MSG_SET_LABELS →
      (poll cs now c (frameBytes [t] (cs [t] % 256))).2 =
        [{ msgType := t, payload := [], effect := none }]) ∧
    (c.onClearDisplay = true →
      (poll cs now c (frameBytes [MSG_CLEAR] (cs [MSG_CLEAR] % 256))).2 =
        [{ msgType := MSG_CLEAR, payload := [],
           effect := some .clearDisplay }]) ∧
    (poll cs now c (frameBytes [t] (cs [t] % 256))).1.bridgeConnected =
      true := by
  have hframe := drain_frame cs now c [t] (cs [t] % 256) hstate hbuf
    (by simp) (by simp) (by intro x hx; simp at hx; omega)
    (Nat.mod_eq_of_lt (Nat.mod_lt _ (by decide)))
  have hframe5 := drain_frame cs now c [MSG_CLEAR] (cs [MSG_CLEAR] % 256)
    hstate hbuf (by simp) (by simp) (by decide)
    (Nat.mod_eq_of_lt (Nat.mod_lt _ (by decide)))
  refine ⟨?_, ?_, ?_⟩
  · intro hcase
    rw [poll_eq_drain cs now c _ hstate, hframe]
    rcases hcase with h | h | h | h <;> subst h <;>
      simp [dispatchEffect, MSG_DISPLAY_TEXT, MSG_STATUS, MSG_SET_LEDS,
        MSG_CLEAR, MSG_SET_LABELS]
  · intro hreg
    rw [poll_eq_drain cs now c _ hstate, hframe5]
    simp [dispatchEffect, MSG_DISPLAY_TEXT, MSG_STATUS, MSG_SET_LEDS,
      MSG_CLEAR, MSG_SET_LABELS, hreg]
  · rw [poll_eq_drain cs now c _ hstate, hframe]

theorem empty_payload_suppression_witness :
    initComms.state = ParseState.waitStart ∧
    initComms.buffer.length = 512 ∧
    (1 : Nat) < 256 ∧
    (poll sumChecksum 1 initComms (frameBytes [1] (sumChecksum [1] % 256))).2 =
      [{ msgType := 1, payload := [], effect := none }] ∧
    (poll sumChecksum 1 initComms
        (frameBytes [MSG_CLEAR] (sumChecksum [MSG_CLEAR] % 256))).2 =
      [{ msgType := MSG_CLEAR, payload := [],
         effect := some .clearDisplay }] ∧
    (poll sumChecksum 1 initComms
        (frameBytes [1] (sumChecksum [1] % 256))).1.bridgeConnected = true :=
  ⟨rfl, initComms_buffer_length, by decide,
   (empty_payload_suppression sumChecksum 1 initComms 1 rfl
      initComms_buffer_length (by decide)).1 (Or.inl rfl),
   (empty_payload_suppression sumChecksum 1 initComms 1 rfl
      initComms_buffer_length (by decide)).2.1 rfl,
   (empty_payload_suppression sumChecksum 1 initComms 1 rfl
      initComms_buffer_length (by decide)).2.2⟩

end ClaudePad
